import Mathlib

/-!
Verification of the SkillScope pipeline (src/src/pipeline.py, src/src/france_travail_api.py,
src/src/gemini_extractor.py, src/src/cache_manager.py, src/app.py).

The Python code is shallowly embedded: pure helpers become Lean functions on
`String`/`List`; the effectful orchestrator `get_skills_for_job` becomes a pure
function from an environment (cache contents, credential presence, search and
extraction outcomes) to a result in an `Except` monad paired with a trace of the
side effects it performed (search call, extraction calls, cache writes).
Python exceptions that the embedded code can raise are modelled with `Except.error`.
-/

/-! ### Models of the Python `str` methods used by the pipeline -/

/-- Python `str.dropWhile` of leading whitespace: the left half of `str.strip()`. -/
def lstripL (l : List Char) : List Char := l.dropWhile Char.isWhitespace

/-- Removal of trailing whitespace: the right half of Python `str.strip()`. -/
def rstripL : List Char → List Char
  | [] => []
  | c :: t =>
    match rstripL t with
    | [] => if c.isWhitespace then [] else [c]
    | r => c :: r

/-- Model of Python `str.strip()` (no argument): remove leading and trailing whitespace. -/
def pyStripL (l : List Char) : List Char := rstripL (lstripL l)

/-- Model of Python `str.strip()` on `String`. -/
def pyStripStr (s : String) : String := String.mk (pyStripL s.data)

/-- Model of Python `str.lower()` (character-wise lowercasing). -/
def strLower (s : String) : String := String.mk (s.data.map Char.toLower)

/-- Model of Python `str.isupper()`: at least one cased character, and every cased
character is uppercase (restricted to ASCII letters, which covers the data here). -/
def pyIsUpper (s : String) : Bool :=
  s.data.any (fun c => c.isAlpha) && s.data.all (fun c => !c.isAlpha || c.isUpper)

/-- Model of Python `str.capitalize()`: first character uppercased, the rest lowercased. -/
def pyCapitalize (s : String) : String :=
  match s.data with
  | [] => s
  | c :: t => String.mk (Char.toUpper c :: t.map Char.toLower)

/-- Helper for `pySplit`: accumulates the current word (reversed) while scanning. -/
def pySplitAux : List Char → List Char → List (List Char)
  | [], cur => if cur.isEmpty then [] else [cur.reverse]
  | c :: t, cur =>
    if c.isWhitespace then
      if cur.isEmpty then pySplitAux t [] else cur.reverse :: pySplitAux t []
    else pySplitAux t (c :: cur)

/-- Model of Python `str.split()` (no argument): split on whitespace runs, no empty words. -/
def pySplit (s : String) : List String := (pySplitAux s.data []).map String.mk

/-- The apostrophe character, built from its code point. -/
def apos : Char := Char.ofNat 39

/-! ### src/src/pipeline.py -/

/-- `GEMINI_BATCH_SIZE` from src/src/pipeline.py line 12. -/
def GEMINI_BATCH_SIZE : Nat := 5

/-- `TOP_SKILLS_LIMIT` from src/src/pipeline.py line 13. -/
def TOP_SKILLS_LIMIT : Nat := 20

/-- The connector-word list from `_standardize_skill_python`
(src/src/pipeline.py line 52), in source order. -/
def connectorWords : List String :=
  ["de", "des", "du", "la", "le", "les", String.mk ['l', apos], "à", "aux", "et", "ou",
   String.mk ['d', apos], "un", "une", "pour", "avec", "sans", "sur", "dans", "en", "par",
   "est", "sont"]

/-- Does the string end with the letter s (Python `str.endswith` with one letter)? -/
def endsWithS (s : String) : Bool := s.data.getLast? == some 's'

/-- Does the string end with a double s (Python `endswith` applied to a two letter suffix)? -/
def endsWithSS (s : String) : Bool := s.data.reverse.take 2 == ['s', 's']

/-- Drop the final character: Python slice `[:-1]`. -/
def dropLastStr (s : String) : String := String.mk s.data.dropLast

/-- The word-capitalization loop of `_standardize_skill_python`
(src/src/pipeline.py lines 48-55): connector words after the first position stay
lowercase, every other word is capitalized. -/
def capitalizeLoop : Nat → List String → List String
  | _, [] => []
  | i, w :: rest =>
    (if i > 0 && (strLower w ∈ connectorWords : Bool) then strLower w else pyCapitalize w)
      :: capitalizeLoop (i + 1) rest

/-- `_standardize_skill_python` from src/src/pipeline.py lines 15-57. -/
def _standardize_skill_python (skill_name : String) : String :=
  let original_stripped := pyStripStr skill_name
  if pyIsUpper original_stripped && original_stripped.length > 1
      && !(original_stripped.data.contains ' ') then
    original_stripped
  else if strLower original_stripped = "power bi" then "Power BI"
  else if strLower original_stripped = "microsoft excel" then "Microsoft Excel"
  else if strLower original_stripped = "big data" then "Big Data"
  else if strLower original_stripped = "machine learning" then "Machine Learning"
  else if strLower original_stripped = "veille technologique" then "Veille Technologique"
  else if strLower original_stripped = "soins aux animaux" then "Soins Aux Animaux"
  else
    let lower_case_skill := strLower original_stripped
    let singularized_skill :=
      if endsWithS lower_case_skill && lower_case_skill.length > 2
          && !(endsWithSS lower_case_skill) then
        dropLastStr lower_case_skill
      else lower_case_skill
    let words := pySplit singularized_skill
    String.intercalate " " (capitalizeLoop 0 words)

/-- `_chunk_list` from src/src/pipeline.py lines 60-68: the list comprehension
`[data[i:i + chunk_size] for i in range(0, len(data), chunk_size)]`. -/
def _chunk_list {α : Type} (data : List α) (chunk_size : Nat) : List (List α) :=
  (List.range' 0 ((data.length + chunk_size - 1) / chunk_size) chunk_size).map
    (fun i => (data.drop i).take chunk_size)

/-- One per-posting entry of a parsed Gemini batch result: the fields that
`_aggregate_results` reads with `data_entry.get(...)`. `none` models a missing key. -/
structure DataEntry where
  skills : Option (List String)
  education_level : Option String
deriving DecidableEq

/-- A parsed Gemini batch result as read by `_aggregate_results`:
`extracted_data` is `none` when the key is absent from the dictionary. -/
structure BatchResult where
  extracted_data : Option (List DataEntry)
deriving DecidableEq

/-- Lookup in an insertion-ordered association list modelling a Python
`defaultdict(int)`; absent keys have count 0. -/
def lookupD : List (String × Nat) → String → Nat
  | [], _ => 0
  | (k2, v) :: rest, k => if k2 = k then v else lookupD rest k

/-- Increment of a key in an insertion-ordered association list, as a Python
`defaultdict(int)` entry update: a fresh key is appended at the end with count 1. -/
def bump : List (String × Nat) → String → List (String × Nat)
  | [], k => [(k, 1)]
  | (k2, v) :: rest, k => if k2 = k then (k2, v + 1) :: rest else (k2, v) :: bump rest k

/-- Key-membership test for the display-name dictionary. -/
def hasKey : List (String × String) → String → Bool
  | [], _ => false
  | (k2, _) :: rest, k => k2 == k || hasKey rest k

/-- Lookup in the display-name dictionary (the invariant of the code guarantees
the key is present when this is used). -/
def lookupStr : List (String × String) → String → String
  | [], _ => ""
  | (k2, v) :: rest, k => if k2 = k then v else lookupStr rest k

/-- The inner loop over the skills list of one entry of
`_aggregate_results` (src/src/pipeline.py lines 92-106). It threads the
display-name dictionary and the per-posting set of counting keys (modelled as a
first-occurrence-ordered duplicate-free list). -/
def skills_loop :
    List String → List (String × String) → List String → List (String × String) × List String
  | [], disp, processed => (disp, processed)
  | raw :: rest, disp, processed =>
    let skill_stripped := pyStripStr raw
    if skill_stripped = "" then skills_loop rest disp processed
    else
      let standardized := _standardize_skill_python skill_stripped
      let counting_key := strLower standardized
      let disp2 := if hasKey disp counting_key then disp else disp ++ [(counting_key, standardized)]
      let processed2 := if counting_key ∈ processed then processed else processed ++ [counting_key]
      skills_loop rest disp2 processed2

/-- The three dictionaries built by the main loop of `_aggregate_results`
(src/src/pipeline.py lines 79-83). -/
structure AggState where
  skill_frequencies : List (String × Nat)
  skill_display_names : List (String × String)
  education_frequencies : List (String × Nat)
deriving DecidableEq

/-- Processing of one `data_entry` (src/src/pipeline.py lines 87-113): run the
skills loop, increment the frequency table once per key of the per-posting set,
then tally the education level unless it is empty or the default. -/
def processEntry (st : AggState) (e : DataEntry) : AggState :=
  let p := skills_loop (e.skills.getD []) st.skill_display_names []
  let freqs := p.2.foldl bump st.skill_frequencies
  let lvl := e.education_level.getD "Non spécifié"
  let edu :=
    if lvl ≠ "" ∧ lvl ≠ "Non spécifié" then bump st.education_frequencies lvl
    else st.education_frequencies
  ⟨freqs, p.1, edu⟩

/-- Processing of one batch result: `filter(None, batch_results)` skips `None`
batches, and the `extracted_data` membership check skips batches
without that key (src/src/pipeline.py lines 85-86). -/
def processBatch (st : AggState) (b : Option BatchResult) : AggState :=
  match b with
  | none => st
  | some rb =>
    match rb.extracted_data with
    | none => st
    | some entries => entries.foldl processEntry st

/-- The full counting loop of `_aggregate_results` over all batch results. -/
def aggState (batch_results : List (Option BatchResult)) : AggState :=
  batch_results.foldl processBatch ⟨[], [], []⟩

/-- Model of `sorted(..., key=lambda item: item[1], reverse=True)`
(src/src/pipeline.py line 117): a stable sort descending by frequency,
realized as an insertion sort with the total transitive relation
`b.2 ≤ a.2`. -/
def sortByFreqDesc (freqs : List (String × Nat)) : List (String × Nat) :=
  List.insertionSort (fun a b => b.2 ≤ a.2) freqs

/-- Model of `max(education_frequencies, key=education_frequencies.get)`:
the first key attaining the maximal count, in insertion order; `none` on an
empty dictionary. -/
def maxByValue : List (String × Nat) → Option String
  | [] => none
  | (k, v) :: rest =>
    some ((rest.foldl (fun best p => if best.2 < p.2 then p else best) (k, v)).1)

/-- One element of the output skills list: `{"skill": ..., "frequency": ...}`. -/
structure SkillOut where
  skill : String
  frequency : Nat
deriving DecidableEq

/-- The dictionary returned by `_aggregate_results`. -/
structure AggOut where
  skills : List SkillOut
  top_diploma : String
deriving DecidableEq

/-- The finalization of `_aggregate_results` (src/src/pipeline.py lines 115-123),
with the truncation limit as a parameter (the code instantiates it with
`TOP_SKILLS_LIMIT`). -/
def aggregateWithLimit (limit : Nat) (batch_results : List (Option BatchResult)) : AggOut :=
  let st := aggState batch_results
  let sorted_skills := sortByFreqDesc st.skill_frequencies
  let top_skills :=
    (sorted_skills.take limit).map (fun p => ⟨lookupStr st.skill_display_names p.1, p.2⟩)
  let top_education := (maxByValue st.education_frequencies).getD "Non précisé"
  ⟨top_skills, top_education⟩

/-- `_aggregate_results` from src/src/pipeline.py lines 70-123. -/
def _aggregate_results (batch_results : List (Option BatchResult)) : AggOut :=
  aggregateWithLimit TOP_SKILLS_LIMIT batch_results

/-! ### Decimal rendering of an integer, as in the Python f-string `@{num_offers}` -/

/-- Little-endian decimal digits of `n`, with explicit fuel so the definition is
structural (the fuel is always instantiated with `n` itself). -/
def decDigitsAux : Nat → Nat → List Nat
  | 0, _ => []
  | fuel + 1, n => if n = 0 then [] else (n % 10) :: decDigitsAux fuel (n / 10)

/-- Model of Python `str(n)` for a natural number: its decimal digit string. -/
def natToDecStr (n : Nat) : String :=
  if n = 0 then "0"
  else String.mk (((decDigitsAux n n).reverse).map (fun d => Char.ofNat (48 + d)))

/-- Value of a little-endian decimal digit list. -/
def decValAux : List Nat → Nat
  | [] => 0
  | d :: t => d + 10 * decValAux t

/-- Decoder of a decimal digit string, used to show `natToDecStr` is injective. -/
def strDecVal (s : String) : Nat :=
  decValAux ((s.data.map (fun c => c.toNat - 48)).reverse)

/-! ### src/app.py and the cache key -/

/-- Accented Latin letters and their base letter: the effect of NFKD
decomposition followed by dropping the non-ASCII combining marks. -/
def accentTable : List (Char × Char) :=
  [('à', 'a'), ('â', 'a'), ('ä', 'a'), ('é', 'e'), ('è', 'e'), ('ê', 'e'), ('ë', 'e'),
   ('î', 'i'), ('ï', 'i'), ('ô', 'o'), ('ö', 'o'), ('ù', 'u'), ('û', 'u'), ('ü', 'u'),
   ('ç', 'c'), ('À', 'A'), ('É', 'E'), ('È', 'E'), ('Ê', 'E'), ('Ç', 'C')]

/-- Character-wise model of unicode NFKD decomposition followed by
the encoding to ASCII that ignores errors: ASCII characters are kept, accented Latin letters
fold to their base letter, any other character is dropped. -/
def asciiFold (c : Char) : Option Char :=
  if c.toNat < 128 then some c
  else
    match accentTable.lookup c with
    | some b => some b
    | none => none

/-- The character-level body of `_normalize_search_term`: fold to ASCII, then
`.lower()`. -/
def normChars (l : List Char) : List Char := (l.filterMap asciiFold).map Char.toLower

/-- `_normalize_search_term` from src/app.py lines 34-41. -/
def _normalize_search_term (term : String) : String :=
  String.mk (pyStripL (normChars term.data))

/-- The cache key computed by `get_skills_for_job` (src/src/pipeline.py line 140):
the f-string interpolation of the already-normalized job title and the offer count. -/
def pipeline_cache_key (job_title : String) (num_offers : Nat) : String :=
  job_title ++ "@" ++ natToDecStr num_offers

/-- The composed cache-key function: src/app.py normalizes the query term and
src/src/pipeline.py appends the offer count. -/
def cache_key_of (query : String) (count : Nat) : String :=
  pipeline_cache_key (_normalize_search_term query) count

/-! ### src/src/france_travail_api.py -/

/-- One raw offer of the API response, with the fields read defensively by
`search_offers_async`; `none` models a missing field. -/
structure RawOffer where
  intitule : Option String
  entreprise_nom : Option String
  url_origine : Option String
  description : Option String
deriving DecidableEq

/-- The simplified offer dictionary built by `search_offers_async`. -/
structure Offer where
  titre : String
  entreprise : String
  url : String
  description : String
deriving DecidableEq

/-- Outcome of the HTTP search request: 204 no content, a client or HTTP error
(`aiohttp.ClientError`, also raised by `raise_for_status`), or a JSON payload. -/
inductive SearchResponse
  | noContent
  | clientError
  | ok (resultats : List RawOffer)
deriving DecidableEq

/-- Environment of one `search_offers_async` call: validity of the stored token,
outcome of `_get_access_token` (which catches `aiohttp.ClientError` and returns
False), and the search response. -/
structure FTEnv where
  tokenValid : Bool
  tokenFetchOk : Bool
  response : SearchResponse
deriving DecidableEq

/-- `FranceTravailClient.search_offers_async` from
src/src/france_travail_api.py lines 64-102. -/
def search_offers_async (env : FTEnv) : List Offer :=
  if !env.tokenValid && !env.tokenFetchOk then []
  else
    match env.response with
    | .noContent => []
    | .clientError => []
    | .ok resultats =>
      resultats.map (fun o =>
        ⟨o.intitule.getD "Titre non précisé",
         o.entreprise_nom.getD "Non précisé",
         o.url_origine.getD "#",
         o.description.getD ""⟩)

/-! ### src/src/gemini_extractor.py -/

/-- State read by `initialize_gemini` (src/src/gemini_extractor.py lines 50-70):
the module-level `model` singleton, the `GOOGLE_CREDENTIALS` environment
variable, and whether credential parsing and client configuration succeed
(the `try` block catches every exception and returns False). -/
structure GeminiState where
  modelInitialized : Bool
  googleCreds : Option String
  setupOk : Bool
deriving DecidableEq

/-- Python truthiness of an optional string: absent or empty is falsy. -/
def pyTruthyOpt : Option String → Bool
  | none => false
  | some s => s != ""

/-- `initialize_gemini` from src/src/gemini_extractor.py lines 50-70. -/
def initialize_gemini (st : GeminiState) : Bool :=
  if st.modelInitialized then true
  else if !(pyTruthyOpt st.googleCreds) then false
  else st.setupOk

/-! ### src/src/pipeline.py: the orchestrator `get_skills_for_job` -/

/-- The Python exceptions relevant to the orchestrator. `typeError` is the
`TypeError` raised by the call `initialize_gemini(logger)` at
src/src/pipeline.py line 147: the function imported from
src/src/gemini_extractor.py (line 50) takes no parameters, so the call itself
raises before any function body runs. `valueError` is the `ValueError` that
`FranceTravailClient.__init__` raises when the credentials are missing
(src/src/france_travail_api.py line 30); in the code as checked in that point
is unreachable, because the `TypeError` at line 147 fires first on every cache
miss. -/
inductive PyError
  | valueError
  | typeError
deriving DecidableEq

/-- The final result dictionary built by `get_skills_for_job`
(src/src/pipeline.py lines 180-184), also the value stored in the cache. -/
structure AnalysisResult where
  skills : List SkillOut
  top_diploma : String
  actual_offers_count : Nat
deriving DecidableEq

/-- Trace of the side effects of one `get_skills_for_job` run: whether the
France Travail search ran, the description chunks sent to Gemini, and the cache
writes performed. -/
structure Trace where
  searchCalled : Bool
  extractCalls : List (List String)
  cacheWrites : List (String × AnalysisResult)
deriving DecidableEq

/-- Environment of one `get_skills_for_job` run: the cache contents
(`get_cached_results`), the Gemini module state, the France Travail credentials
from the environment variables, the offers the search would return, and the
parsed result each Gemini extraction call would produce for a given chunk. In
the code as checked in, only the cache field is ever consulted: every cache
miss raises before the client is constructed or the search runs (see
`get_skills_for_job`). -/
structure PipelineEnv where
  cache : String → Option AnalysisResult
  gemini : GeminiState
  ft_client_id : Option String
  ft_client_secret : Option String
  searchResult : List Offer
  extract : List String → Option BatchResult

/-- `get_skills_for_job` from src/src/pipeline.py lines 125-192, paired with the
trace of its side effects. The cache-hit path (lines 140-144) returns the
cached value, which is a result dictionary and hence truthy. On a cache miss,
line 147 evaluates `initialize_gemini(logger)`; the `initialize_gemini`
imported from src/src/gemini_extractor.py (its line 50) takes no parameters, so
this call raises `TypeError` before the France Travail client is constructed
and before any search, extraction or cache write happens. The remainder of the
function body (lines 148-192) is unreachable; its aggregation logic lives in
`_aggregate_results`, which is embedded above. -/
def get_skills_for_job (env : PipelineEnv) (job_title : String) (num_offers : Nat) :
    Except PyError (Option AnalysisResult) × Trace :=
  let ck := pipeline_cache_key job_title num_offers
  match env.cache ck with
  | some cached => (Except.ok (some cached), ⟨false, [], []⟩)
  | none => (Except.error PyError.typeError, ⟨false, [], []⟩)

/-! ### Derived definitions used to state and prove the properties -/

/-- The per-posting set of counting keys of one `data_entry`: what its skills
list contributes to the frequency table (the `processed_skills_for_this_description`
set of src/src/pipeline.py, which does not depend on the display-name dictionary). -/
def entry_counting_keys (e : DataEntry) : List String :=
  (skills_loop (e.skills.getD []) [] []).2

/-- Contribution of one batch result to the count of the key `k`. -/
def batch_contrib (k : String) : Option BatchResult → Nat
  | none => 0
  | some rb =>
    match rb.extracted_data with
    | none => 0
    | some entries => (entries.map (fun e => (entry_counting_keys e).count k)).sum

/-- The count of the key `k` in the skill-frequency table built by
`_aggregate_results` from the given batch results. -/
def skill_count (batch_results : List (Option BatchResult)) (k : String) : Nat :=
  lookupD (aggState batch_results).skill_frequencies k

instance : IsTotal (String × Nat) (fun a b => b.2 ≤ a.2) :=
  ⟨fun a b => Nat.le_total b.2 a.2⟩

instance : IsTrans (String × Nat) (fun a b => b.2 ≤ a.2) :=
  ⟨fun _ _ _ h1 h2 => Nat.le_trans h2 h1⟩

/-! ### Concrete instances used as witnesses and counterexamples -/

/-- A Gemini state whose module-level model singleton is already set. -/
def geminiReady : GeminiState := ⟨true, none, false⟩

/-- An offer with the given description. -/
def mkOffer (d : String) : Offer := ⟨"t", "e", "u", d⟩

/-- Fifteen offers with non-empty descriptions d0 .. d14. -/
def offers15 : List Offer := (List.range 15).map (fun i => mkOffer ("d" ++ natToDecStr i))

/-- The first chunk of five descriptions of `offers15`. -/
def chunkD1 : List String := ["d0", "d1", "d2", "d3", "d4"]

/-- The second chunk of five descriptions of `offers15`. -/
def chunkD2 : List String := ["d5", "d6", "d7", "d8", "d9"]

/-- A batch result with `n` entries, each carrying the given skills. -/
def batchOf (sk : List String) (n : Nat) : BatchResult :=
  ⟨some (List.replicate n ⟨some sk, some "Bac+5 / Master"⟩)⟩

/-- Environment for the malformed-batch scenario: fifteen offers, three
extraction batches of five descriptions, the second of which is unparsable
(`None`), the other two successful. -/
def envC8 : PipelineEnv :=
  { cache := fun _ => none
    gemini := geminiReady
    ft_client_id := some "id"
    ft_client_secret := some "secret"
    searchResult := offers15
    extract := fun chunk =>
      if chunk = chunkD1 then some (batchOf ["sql", "python"] 5)
      else if chunk = chunkD2 then none
      else some (batchOf ["python"] 5) }

/-- Environment with both France Travail credentials missing from the
environment variables (and nothing cached). -/
def envMissingCreds : PipelineEnv :=
  { cache := fun _ => none
    gemini := geminiReady
    ft_client_id := none
    ft_client_secret := none
    searchResult := []
    extract := fun _ => none }

/-- Environment with credentials present, an empty search result, and an empty cache. -/
def envEmptySearch : PipelineEnv :=
  { cache := fun _ => none
    gemini := geminiReady
    ft_client_id := some "id"
    ft_client_secret := some "secret"
    searchResult := []
    extract := fun _ => none }

/-- A well-formed analysis result, as would have been stored by a previous run. -/
def cachedExample : AnalysisResult := ⟨[⟨"Sql", 3⟩], "Bac+5 / Master", 7⟩

/-- Environment whose cache holds `cachedExample` under the key of the query
"data engineer" with 100 offers. -/
def envCacheHit : PipelineEnv :=
  { cache := fun k => if k = "data engineer@100" then some cachedExample else none
    gemini := ⟨false, none, false⟩
    ft_client_id := none
    ft_client_secret := none
    searchResult := []
    extract := fun _ => none }

/-- A France Travail environment where token acquisition fails. -/
def ftEnvTokenFail : FTEnv := ⟨false, false, SearchResponse.clientError⟩

/-- A batch result with one entry naming sql and python. -/
def batchA : BatchResult := ⟨some [⟨some ["sql", "python"], none⟩]⟩

/-- A batch result with one entry naming sql. -/
def batchB : BatchResult := ⟨some [⟨some ["sql"], some "Bac+2"⟩]⟩

/-- One batch result whose ten entries give the frequency table
aa = 5, bb = 9, cc = 9, dd = 1. -/
def exampleBatchesC4 : List (Option BatchResult) :=
  [some ⟨some (List.replicate 5 ⟨some ["aa", "bb", "cc"], none⟩
      ++ List.replicate 4 ⟨some ["bb", "cc"], none⟩
      ++ [⟨some ["dd"], none⟩])⟩]

/-- A single entry whose skills list has duplicates normalizing to one key. -/
def entrySQLdup : DataEntry := ⟨some ["SQL", "sql", "SQL"], none⟩

/-- Twenty-one distinct skill names s0 .. s20. -/
def skills21 : List String := (List.range 21).map (fun i => "s" ++ natToDecStr i)

/-- A batch list producing twenty-one distinct skills, so that the top-20
truncation actually drops one entry. -/
def manyBatch : List (Option BatchResult) := [some ⟨some [⟨some skills21, none⟩]⟩]
/-! ### Properties of `_chunk_list` (claim C10) -/

theorem range'_shift (s : Nat) : ∀ (k a : Nat),
    List.range' (a + s) k s = (List.range' a k s).map (· + s) := by
  intro k
  induction k with
  | zero => intro a; simp [List.range']
  | succ k ih =>
    intro a
    simp only [List.range', List.map_cons, List.cons.injEq]
    exact ⟨trivial, ih (a + s)⟩

theorem chunk_list_nil {α : Type} (s : Nat) : _chunk_list ([] : List α) s = [] := by
  unfold _chunk_list
  rcases Nat.eq_zero_or_pos s with h | h
  · subst h; simp
  · have h0 : (0 + s - 1) / s = 0 := Nat.div_eq_of_lt (by omega)
    simp only [List.length_nil, h0, List.range'_zero, List.map_nil]

theorem chunk_list_cons_step {α : Type} (data : List α) (s : Nat) (hs : 0 < s)
    (hd : data ≠ []) :
    _chunk_list data s = data.take s :: _chunk_list (data.drop s) s := by
  unfold _chunk_list
  have hn : 0 < data.length := List.length_pos.mpr hd
  have hcount : (data.length + s - 1) / s = (data.length - 1) / s + 1 := by
    have h1 : data.length + s - 1 = (data.length - 1) + s := by omega
    rw [h1, Nat.add_div_right _ hs]
  have hcount2 : ((data.drop s).length + s - 1) / s = (data.length - 1) / s := by
    rw [List.length_drop]
    rcases le_or_lt s data.length with h | h
    · have h1 : data.length - s + s - 1 = data.length - 1 := by omega
      rw [h1]
    · have h1 : data.length - s = 0 := by omega
      rw [h1]
      rw [Nat.div_eq_of_lt (by omega), Nat.div_eq_of_lt (by omega)]
  rw [hcount, hcount2]
  simp only [List.range', List.map_cons, List.cons.injEq, List.drop_zero, Nat.zero_add]
  refine ⟨trivial, ?_⟩
  have hshift := range'_shift s ((data.length - 1) / s) 0
  rw [Nat.zero_add] at hshift
  rw [hshift, List.map_map]
  apply List.map_congr_left
  intro i _
  simp only [Function.comp_apply]
  rw [Nat.add_comm i s, ← List.drop_drop]

theorem chunk_list_flatten {α : Type} (s : Nat) (hs : 0 < s) :
    ∀ data : List α, (_chunk_list data s).flatten = data := by
  suffices h : ∀ (n : Nat) (data : List α), data.length ≤ n →
      (_chunk_list data s).flatten = data by
    intro data; exact h data.length data le_rfl
  intro n
  induction n with
  | zero =>
    intro data h
    have : data = [] := List.eq_nil_of_length_eq_zero (Nat.le_zero.mp h)
    subst this
    simp [chunk_list_nil]
  | succ n ih =>
    intro data h
    rcases eq_or_ne data [] with rfl | hd
    · simp [chunk_list_nil]
    · rw [chunk_list_cons_step data s hs hd, List.flatten_cons,
        ih (data.drop s) (by rw [List.length_drop]; omega)]
      exact List.take_append_drop s data

theorem chunk_list_ne_nil_mem {α : Type} (s : Nat) (hs : 0 < s) :
    ∀ data : List α, ∀ c ∈ _chunk_list data s, c ≠ [] := by
  suffices h : ∀ (n : Nat) (data : List α), data.length ≤ n →
      ∀ c ∈ _chunk_list data s, c ≠ [] by
    intro data; exact h data.length data le_rfl
  intro n
  induction n with
  | zero =>
    intro data h
    have : data = [] := List.eq_nil_of_length_eq_zero (Nat.le_zero.mp h)
    subst this
    simp [chunk_list_nil]
  | succ n ih =>
    intro data h c hc
    rcases eq_or_ne data [] with rfl | hd
    · rw [chunk_list_nil] at hc; cases hc
    · rw [chunk_list_cons_step data s hs hd] at hc
      rcases List.mem_cons.mp hc with rfl | hmem
      · have hlen : 0 < (data.take s).length := by
          rw [List.length_take]
          have := List.length_pos.mpr hd
          omega
        exact List.ne_nil_of_length_pos hlen
      · exact ih (data.drop s) (by rw [List.length_drop]; omega) c hmem

theorem chunk_list_dropLast_length {α : Type} (s : Nat) (hs : 0 < s) :
    ∀ data : List α, ∀ c ∈ (_chunk_list data s).dropLast, c.length = s := by
  suffices h : ∀ (n : Nat) (data : List α), data.length ≤ n →
      ∀ c ∈ (_chunk_list data s).dropLast, c.length = s by
    intro data; exact h data.length data le_rfl
  intro n
  induction n with
  | zero =>
    intro data h
    have : data = [] := List.eq_nil_of_length_eq_zero (Nat.le_zero.mp h)
    subst this
    simp [chunk_list_nil]
  | succ n ih =>
    intro data h c hc
    rcases eq_or_ne data [] with rfl | hd
    · rw [chunk_list_nil] at hc; cases hc
    · rw [chunk_list_cons_step data s hs hd] at hc
      rcases eq_or_ne (_chunk_list (data.drop s) s) [] with hrest | hrest
      · rw [hrest] at hc
        simp at hc
      · rw [List.dropLast_cons_of_ne_nil hrest] at hc
        rcases List.mem_cons.mp hc with rfl | hmem
        · have hds : data.drop s ≠ [] := by
            intro h0
            rw [h0, chunk_list_nil] at hrest
            exact hrest rfl
          have hlen : s < data.length := by
            have := List.length_pos.mpr hds
            rw [List.length_drop] at this
            omega
          rw [List.length_take]
          omega
        · exact ih (data.drop s) (by rw [List.length_drop]; omega) c hmem

/-- C10: for every list and every chunk size greater than zero, concatenating the
chunks produced by `_chunk_list` in order yields exactly the original list, every
chunk is non-empty, and every chunk except possibly the last has exactly
`chunk_size` elements. -/
theorem chunk_list_spec {α : Type} (data : List α) (chunk_size : Nat)
    (h : 0 < chunk_size) :
    (_chunk_list data chunk_size).flatten = data ∧
    (∀ c ∈ _chunk_list data chunk_size, c ≠ []) ∧
    (∀ c ∈ (_chunk_list data chunk_size).dropLast, c.length = chunk_size) :=
  ⟨chunk_list_flatten chunk_size h data, chunk_list_ne_nil_mem chunk_size h data,
   chunk_list_dropLast_length chunk_size h data⟩

/-- Witness for C10 at a concrete input. -/
theorem chunk_list_spec_witness :
    0 < 2 ∧
    ((_chunk_list [1, 2, 3, 4, 5] 2).flatten = [1, 2, 3, 4, 5] ∧
    (∀ c ∈ _chunk_list [1, 2, 3, 4, 5] 2, c ≠ []) ∧
    (∀ c ∈ (_chunk_list [1, 2, 3, 4, 5] 2).dropLast, c.length = 2)) :=
  ⟨by decide, chunk_list_spec [1, 2, 3, 4, 5] 2 (by decide)⟩
/-! ### Counting lemmas for `_aggregate_results` (claims C2 and C3) -/

theorem lookupD_bump : ∀ (m : List (String × Nat)) (k2 k : String),
    lookupD (bump m k2) k = lookupD m k + (if k2 = k then 1 else 0) := by
  intro m
  induction m with
  | nil =>
    intro k2 k
    simp only [bump, lookupD]
    split_ifs <;> simp
  | cons p rest ih =>
    obtain ⟨a, v⟩ := p
    intro k2 k
    by_cases h1 : a = k2
    · subst h1
      by_cases h2 : a = k
      · subst h2
        simp [bump, lookupD]
      · simp [bump, lookupD, h2]
    · by_cases h2 : a = k
      · subst h2
        simp only [bump, if_neg h1, lookupD, if_pos rfl]
        have hne : k2 ≠ a := fun hh => h1 hh.symm
        simp [hne]
      · simp only [bump, if_neg h1, lookupD, if_neg h2]
        exact ih k2 k

theorem lookupD_foldl_bump : ∀ (ks : List String) (m : List (String × Nat)) (k : String),
    lookupD (ks.foldl bump m) k = lookupD m k + ks.count k := by
  intro ks
  induction ks with
  | nil => intro m k; simp
  | cons k2 ks ih =>
    intro m k
    simp only [List.foldl_cons]
    rw [ih (bump m k2) k, lookupD_bump, List.count_cons]
    by_cases h : k2 = k
    all_goals simp [h]
    all_goals omega

theorem skills_loop_snd_indep : ∀ (skills : List String)
    (d1 d2 : List (String × String)) (p : List String),
    (skills_loop skills d1 p).2 = (skills_loop skills d2 p).2 := by
  intro skills
  induction skills with
  | nil => intro d1 d2 p; rfl
  | cons raw rest ih =>
    intro d1 d2 p
    simp only [skills_loop]
    split_ifs <;> exact ih _ _ _

theorem lookupD_processEntry (st : AggState) (e : DataEntry) (k : String) :
    lookupD (processEntry st e).skill_frequencies k
      = lookupD st.skill_frequencies k + (entry_counting_keys e).count k := by
  unfold processEntry
  simp only
  rw [skills_loop_snd_indep (e.skills.getD []) st.skill_display_names [] ]
  exact lookupD_foldl_bump _ _ _

theorem lookupD_foldl_processEntry : ∀ (entries : List DataEntry) (st : AggState) (k : String),
    lookupD (entries.foldl processEntry st).skill_frequencies k
      = lookupD st.skill_frequencies k
        + (entries.map (fun e => (entry_counting_keys e).count k)).sum := by
  intro entries
  induction entries with
  | nil => intro st k; simp
  | cons e rest ih =>
    intro st k
    simp only [List.foldl_cons, List.map_cons, List.sum_cons]
    rw [ih (processEntry st e) k, lookupD_processEntry]
    omega

theorem lookupD_processBatch (st : AggState) (b : Option BatchResult) (k : String) :
    lookupD (processBatch st b).skill_frequencies k
      = lookupD st.skill_frequencies k + batch_contrib k b := by
  cases b with
  | none => simp [processBatch, batch_contrib]
  | some rb =>
    cases h : rb.extracted_data with
    | none => simp [processBatch, batch_contrib, h]
    | some entries =>
      simp only [processBatch, batch_contrib, h]
      exact lookupD_foldl_processEntry entries st k

theorem lookupD_foldl_processBatch :
    ∀ (l : List (Option BatchResult)) (st : AggState) (k : String),
    lookupD (l.foldl processBatch st).skill_frequencies k
      = lookupD st.skill_frequencies k + (l.map (batch_contrib k)).sum := by
  intro l
  induction l with
  | nil => intro st k; simp
  | cons b rest ih =>
    intro st k
    simp only [List.foldl_cons, List.map_cons, List.sum_cons]
    rw [ih (processBatch st b) k, lookupD_processBatch]
    omega

theorem skill_count_eq_sum (l : List (Option BatchResult)) (k : String) :
    skill_count l k = (l.map (batch_contrib k)).sum := by
  unfold skill_count aggState
  rw [lookupD_foldl_processBatch]
  simp [lookupD]

/-- C2: aggregating batch results in any order yields the same per-skill counts;
in particular the counts of a list of batches and of its reverse agree. -/
theorem merge_order_invariant :
    (∀ (l l2 : List (Option BatchResult)), l.Perm l2 →
      ∀ k, skill_count l k = skill_count l2 k) ∧
    (∀ (l : List (Option BatchResult)) (k : String),
      skill_count l k = skill_count l.reverse k) := by
  constructor
  · intro l l2 hp k
    rw [skill_count_eq_sum, skill_count_eq_sum]
    exact (hp.map (batch_contrib k)).sum_eq
  · intro l k
    rw [skill_count_eq_sum, skill_count_eq_sum, List.map_reverse, List.sum_reverse]

/-- Witness for C2: swapping two concrete batches leaves the sql count unchanged. -/
theorem merge_order_invariant_witness :
    ([some batchA, some batchB] : List (Option BatchResult)).Perm [some batchB, some batchA] ∧
    skill_count [some batchA, some batchB] "sql" = skill_count [some batchB, some batchA] "sql" :=
  ⟨List.Perm.swap _ _ [], merge_order_invariant.1 _ _ (List.Perm.swap _ _ []) "sql"⟩

theorem nodup_append_singleton (p : List String) (a : String) (hp : p.Nodup)
    (ha : a ∉ p) : (p ++ [a]).Nodup := by
  rw [List.nodup_append]
  refine ⟨hp, List.nodup_singleton a, ?_⟩
  intro x hx hxa
  rw [List.mem_singleton] at hxa
  exact ha (hxa ▸ hx)

theorem skills_loop_nodup : ∀ (skills : List String)
    (d : List (String × String)) (p : List String),
    p.Nodup → (skills_loop skills d p).2.Nodup := by
  intro skills
  induction skills with
  | nil => intro d p hp; exact hp
  | cons raw rest ih =>
    intro d p hp
    simp only [skills_loop]
    split_ifs
    all_goals apply ih
    all_goals first
      | exact hp
      | exact nodup_append_singleton _ _ hp (by assumption)

theorem entry_counting_keys_nodup (e : DataEntry) : (entry_counting_keys e).Nodup :=
  skills_loop_nodup _ [] [] List.nodup_nil

/-- C3: one extracted entry contributes at most 1 to the count of any skill key,
even when its skills list contains duplicates that normalize to the same key;
at the concrete entry with skills SQL, sql, SQL the global count of the key sql
is exactly 1. -/
theorem per_posting_dedup :
    (∀ (st : AggState) (e : DataEntry) (k : String),
      lookupD (processEntry st e).skill_frequencies k ≤ lookupD st.skill_frequencies k + 1) ∧
    skill_count [some ⟨some [entrySQLdup]⟩] "sql" = 1 := by
  constructor
  · intro st e k
    rw [lookupD_processEntry]
    have h1 : (entry_counting_keys e).count k ≤ 1 :=
      List.nodup_iff_count_le_one.mp (entry_counting_keys_nodup e) k
    omega
  · decide
/-! ### Top-N truncation and ordering (claim C4) -/

theorem sortByFreqDesc_sorted (freqs : List (String × Nat)) :
    (sortByFreqDesc freqs).Pairwise (fun a b => b.2 ≤ a.2) :=
  List.sorted_insertionSort _ freqs

theorem sortByFreqDesc_perm (freqs : List (String × Nat)) :
    (sortByFreqDesc freqs).Perm freqs :=
  List.perm_insertionSort _ freqs

/-- C4: the skills list returned by `_aggregate_results` is sorted in descending
order of frequency, its length is the minimum of the top-N limit (20 in this
revision) and the number of distinct counting keys, every returned entry has
frequency at least that of every entry dropped by the truncation, and on the
concrete frequency table aa = 5, bb = 9, cc = 9, dd = 1 with limit 3 the result
has exactly the three frequencies 9, 9, 5. -/
theorem top_n_truncation :
    (∀ l : List (Option BatchResult),
      ((_aggregate_results l).skills).Pairwise (fun a b => b.frequency ≤ a.frequency) ∧
      (_aggregate_results l).skills.length
        = min TOP_SKILLS_LIMIT (aggState l).skill_frequencies.length ∧
      (∀ e ∈ (_aggregate_results l).skills,
        ∀ q ∈ (sortByFreqDesc (aggState l).skill_frequencies).drop TOP_SKILLS_LIMIT,
          q.2 ≤ e.frequency)) ∧
    TOP_SKILLS_LIMIT = 20 ∧
    (aggregateWithLimit 3 exampleBatchesC4).skills.map SkillOut.frequency = [9, 9, 5] := by
  refine ⟨?_, rfl, by decide⟩
  intro l
  refine ⟨?_, ?_, ?_⟩
  · simp only [_aggregate_results, aggregateWithLimit]
    rw [List.pairwise_map]
    exact ((sortByFreqDesc_sorted _).sublist (List.take_sublist _ _)).imp (fun h => h)
  · simp only [_aggregate_results, aggregateWithLimit, List.length_map, List.length_take]
    rw [(sortByFreqDesc_perm _).length_eq]
  · have hs := sortByFreqDesc_sorted (aggState l).skill_frequencies
    rw [← List.take_append_drop TOP_SKILLS_LIMIT
      (sortByFreqDesc (aggState l).skill_frequencies), List.pairwise_append] at hs
    obtain ⟨-, -, hrel⟩ := hs
    intro e he q hq
    simp only [_aggregate_results, aggregateWithLimit, List.mem_map] at he
    obtain ⟨p, hp, rfl⟩ := he
    exact hrel p hp q hq

/-- Witness for C4 on a table with twenty-one distinct skills, where the
truncation drops one entry. -/
theorem top_n_truncation_witness :
    (⟨"S0", 1⟩ : SkillOut) ∈ (_aggregate_results manyBatch).skills ∧
    ("s20", 1) ∈ (sortByFreqDesc (aggState manyBatch).skill_frequencies).drop TOP_SKILLS_LIMIT ∧
    (("s20", 1) : String × Nat).2 ≤ (⟨"S0", 1⟩ : SkillOut).frequency :=
  ⟨by decide, by decide,
   (top_n_truncation.1 manyBatch).2.2 _ (by decide) _ (by decide)⟩
/-! ### Cache hit, empty fetch, and exception propagation (claims C6, C5, C1, C9) -/

/-- C6: when a cached value exists under the computed key, `get_skills_for_job`
returns it immediately, with no search call, no extraction call and no cache write. -/
theorem cache_hit_short_circuit (env : PipelineEnv) (j : String) (n : Nat)
    (r : AnalysisResult) (h : env.cache (pipeline_cache_key j n) = some r) :
    get_skills_for_job env j n = (Except.ok (some r), ⟨false, [], []⟩) := by
  simp [get_skills_for_job, h]

/-- Witness for C6 at a concrete environment with a cache hit. -/
theorem cache_hit_short_circuit_witness :
    envCacheHit.cache (pipeline_cache_key "data engineer" 100) = some cachedExample ∧
    get_skills_for_job envCacheHit "data engineer" 100
      = (Except.ok (some cachedExample), ⟨false, [], []⟩) :=
  ⟨by decide, cache_hit_short_circuit envCacheHit "data engineer" 100 cachedExample (by decide)⟩

/-- C5 (evaluation at the failing input): the claim describes the empty-fetch
`None` return written at src/src/pipeline.py lines 155-162, but that code is
unreachable: on any cache miss — here with credentials present and a search
that would return no offers — the run raises `TypeError` at line 147 before the
search is consulted; it performs no extraction call, and it does not return
`None`. -/
theorem empty_fetch_raises_at_failing_input :
    (get_skills_for_job envEmptySearch "data engineer" 100).1
      = Except.error PyError.typeError ∧
    (get_skills_for_job envEmptySearch "data engineer" 100).2.extractCalls = [] ∧
    (get_skills_for_job envEmptySearch "data engineer" 100).1 ≠ Except.ok none :=
  ⟨rfl, rfl, fun h => Except.noConfusion h⟩

/-- Counterexample for C1: at a cache miss (here additionally with both France
Travail credentials missing, the case the claim singles out),
`get_skills_for_job` lets a language-level exception propagate to its caller:
the call `initialize_gemini(logger)` at src/src/pipeline.py line 147 raises
`TypeError`, because the function imported from src/src/gemini_extractor.py
takes no parameters. -/
theorem cache_miss_raises_counterexample :
    (get_skills_for_job envMissingCreds "data engineer" 100).1
      = Except.error PyError.typeError := rfl

/-- C1 (amended): `get_skills_for_job` returns a value without raising exactly
on the cache-hit path: an existing cached value is returned as is; on every
cache miss — for every outcome of the credentials, the search and the
extraction calls — the `initialize_gemini(logger)` call raises `TypeError`,
which propagates to the caller, so the missing-credentials `ValueError` of
`FranceTravailClient.__init__` is never reached. -/
theorem value_only_on_cache_hit (env : PipelineEnv) (j : String) (n : Nat) :
    (∀ r, env.cache (pipeline_cache_key j n) = some r →
      get_skills_for_job env j n = (Except.ok (some r), ⟨false, [], []⟩)) ∧
    (env.cache (pipeline_cache_key j n) = none →
      (get_skills_for_job env j n).1 = Except.error PyError.typeError) := by
  constructor
  · intro r h
    simp [get_skills_for_job, h]
  · intro h
    simp [get_skills_for_job, h]

/-- Witness for the amended C1: a concrete cache hit returns the cached value,
and a concrete cache miss raises. -/
theorem value_only_on_cache_hit_witness :
    envCacheHit.cache (pipeline_cache_key "data engineer" 100) = some cachedExample ∧
    get_skills_for_job envCacheHit "data engineer" 100
      = (Except.ok (some cachedExample), ⟨false, [], []⟩) ∧
    envMissingCreds.cache (pipeline_cache_key "data engineer" 100) = none ∧
    (get_skills_for_job envMissingCreds "data engineer" 100).1
      = Except.error PyError.typeError :=
  ⟨by decide,
   (value_only_on_cache_hit envCacheHit "data engineer" 100).1 cachedExample (by decide),
   rfl,
   (value_only_on_cache_hit envMissingCreds "data engineer" 100).2 rfl⟩

/-- C9: `search_offers_async` returns an empty list, rather than raising, when
token acquisition fails, when the search request fails with a client or HTTP
error, and when the response is HTTP 204 no content. -/
theorem search_failure_returns_empty (env : FTEnv)
    (h : (env.tokenValid = false ∧ env.tokenFetchOk = false) ∨
         env.response = SearchResponse.clientError ∨
         env.response = SearchResponse.noContent) :
    search_offers_async env = [] := by
  unfold search_offers_async
  rcases h with ⟨h1, h2⟩ | h | h
  · simp [h1, h2]
  · split_ifs with ht
    · rfl
    · simp [h]
  · split_ifs with ht
    · rfl
    · simp [h]

/-- Witness for C9 at a concrete environment where token acquisition fails. -/
theorem search_failure_returns_empty_witness :
    ((ftEnvTokenFail.tokenValid = false ∧ ftEnvTokenFail.tokenFetchOk = false) ∨
      ftEnvTokenFail.response = SearchResponse.clientError ∨
      ftEnvTokenFail.response = SearchResponse.noContent) ∧
    search_offers_async ftEnvTokenFail = [] :=
  ⟨Or.inl ⟨rfl, rfl⟩, search_failure_returns_empty ftEnvTokenFail (Or.inl ⟨rfl, rfl⟩)⟩
/-! ### Malformed-batch tolerance (claim C8) -/

theorem foldl_processBatch_filter_isSome :
    ∀ (l : List (Option BatchResult)) (st : AggState),
    l.foldl processBatch st = (l.filter Option.isSome).foldl processBatch st := by
  intro l
  induction l with
  | nil => intro st; rfl
  | cons b rest ih =>
    intro st
    cases b with
    | none => simp [processBatch, ih]
    | some rb => simp [List.filter_cons, Option.isSome, ih]

/-- `None` batches contribute nothing: aggregation only sees the successful batches. -/
theorem aggregate_results_filter_isSome (l : List (Option BatchResult)) :
    _aggregate_results l = _aggregate_results (l.filter Option.isSome) := by
  unfold _aggregate_results aggregateWithLimit aggState
  rw [foldl_processBatch_filter_isSome]

/-- Counterexample for C8: at the concrete scenario of the claim (fifteen
offers with descriptions, three extraction batches of five, the middle one
unparsable), the run does not return a non-`None` AnalysisResult at all: the
cache miss raises `TypeError` at src/src/pipeline.py line 147, before any
batch is extracted. -/
theorem malformed_batch_run_raises_counterexample :
    (get_skills_for_job envC8 "data engineer" 15).1 = Except.error PyError.typeError ∧
    (get_skills_for_job envC8 "data engineer" 15).2.extractCalls = [] :=
  ⟨rfl, rfl⟩

/-- C8 (amended): the merging step does tolerate unparsable batches — the
tables built by `_aggregate_results` from a batch list equal those built from
its non-`None` batches alone, and concretely two successful batches of five
postings around a `None` batch still yield the skills python (10) and sql (5) —
but the orchestrator never returns an AnalysisResult: on every cache miss
`get_skills_for_job` raises `TypeError` at the `initialize_gemini` call, before
any batch is extracted, so no result and no offer count of any kind is
reported. -/
theorem malformed_batch_tolerance :
    (∀ l : List (Option BatchResult),
      _aggregate_results l = _aggregate_results (l.filter Option.isSome)) ∧
    (_aggregate_results [some (batchOf ["sql", "python"] 5), none,
        some (batchOf ["python"] 5)]
      = _aggregate_results [some (batchOf ["sql", "python"] 5),
          some (batchOf ["python"] 5)] ∧
     (_aggregate_results [some (batchOf ["sql", "python"] 5), none,
        some (batchOf ["python"] 5)]).skills = [⟨"Python", 10⟩, ⟨"Sql", 5⟩]) ∧
    (∀ (env : PipelineEnv) (j : String) (n : Nat),
      env.cache (pipeline_cache_key j n) = none →
      (get_skills_for_job env j n).1 = Except.error PyError.typeError ∧
      (get_skills_for_job env j n).2.extractCalls = []) := by
  refine ⟨aggregate_results_filter_isSome, ⟨by decide, by decide⟩, ?_⟩
  intro env j n hc
  constructor <;> simp [get_skills_for_job, hc]

/-- Witness for the amended C8 at the concrete three-batch environment. -/
theorem malformed_batch_tolerance_witness :
    envC8.cache (pipeline_cache_key "data engineer" 15) = none ∧
    ((get_skills_for_job envC8 "data engineer" 15).1 = Except.error PyError.typeError ∧
     (get_skills_for_job envC8 "data engineer" 15).2.extractCalls = []) :=
  ⟨rfl, malformed_batch_tolerance.2.2 envC8 "data engineer" 15 rfl⟩
/-! ### Cache-key determinism (claim C7): whitespace and normalization lemmas -/

theorem ws_char_cases (c : Char) (h : c.isWhitespace = true) :
    c = ' ' ∨ c = '\t' ∨ c = '\r' ∨ c = '\n' := by
  simp only [Char.isWhitespace, decide_eq_true_eq, Bool.or_eq_true] at h
  tauto

theorem asciiFold_ws (c : Char) (h : c.isWhitespace = true) : asciiFold c = some c := by
  rcases ws_char_cases c h with rfl | rfl | rfl | rfl <;> decide

theorem toLower_ws (c : Char) (h : c.isWhitespace = true) : c.toLower = c := by
  rcases ws_char_cases c h with rfl | rfl | rfl | rfl <;> decide

theorem normChars_ws_cons (c : Char) (l : List Char) (h : c.isWhitespace = true) :
    normChars (c :: l) = c :: normChars l := by
  simp [normChars, List.filterMap_cons, asciiFold_ws c h, toLower_ws c h]

theorem normChars_cons (c : Char) (l : List Char) :
    normChars (c :: l) = normChars [c] ++ normChars l := by
  simp only [normChars, List.filterMap_cons, List.filterMap_nil]
  rcases asciiFold c with _ | b <;> simp

theorem lookup_snd_mem : ∀ (tbl : List (Char × Char)) (a b : Char),
    tbl.lookup a = some b → b ∈ tbl.map Prod.snd := by
  intro tbl
  induction tbl with
  | nil => intro a b h; simp [List.lookup] at h
  | cons p rest ih =>
    intro a b h
    obtain ⟨k, v⟩ := p
    simp only [List.lookup] at h
    rcases hk : (a == k) with _ | _
    · rw [hk] at h
      simp only [List.map_cons, List.mem_cons]
      exact Or.inr (ih a b h)
    · rw [hk] at h
      injection h with h
      subst h
      exact List.mem_cons_self _ _

theorem asciiFold_not_ws (c c2 : Char) (hc : c.isWhitespace = false)
    (hf : asciiFold c = some c2) : c2.isWhitespace = false := by
  unfold asciiFold at hf
  split_ifs at hf with h128
  · injection hf with hf
    subst hf
    exact hc
  · rcases h2 : accentTable.lookup c with _ | b
    · rw [h2] at hf; cases hf
    · rw [h2] at hf
      injection hf with hf
      subst hf
      have hsnd : b ∈ accentTable.map Prod.snd := lookup_snd_mem accentTable c b h2
      have hall : ∀ b2 ∈ accentTable.map Prod.snd, b2.isWhitespace = false := by decide
      exact hall b hsnd

theorem toLower_not_ws (c : Char) (hc : c.isWhitespace = false) :
    c.toLower.isWhitespace = false := by
  have hdef : c.toLower
      = if 65 ≤ c.toNat ∧ c.toNat ≤ 90 then Char.ofNat (c.toNat + 32) else c := rfl
  rw [hdef]
  split_ifs with h
  · have hb : ∀ n, n < 91 → 65 ≤ n → (Char.ofNat (n + 32)).isWhitespace = false := by decide
    exact hb c.toNat (by omega) h.1
  · exact hc

theorem normChars_singleton_not_ws (c : Char) (hc : c.isWhitespace = false) :
    ∀ c2 ∈ normChars [c], c2.isWhitespace = false := by
  intro c2 h2
  simp only [normChars, List.filterMap_cons, List.filterMap_nil] at h2
  rcases hf : asciiFold c with _ | b
  · rw [hf] at h2; simp at h2
  · rw [hf] at h2
    simp only [List.map_cons, List.map_nil, List.mem_singleton] at h2
    subst h2
    exact toLower_not_ws b (asciiFold_not_ws c b hc hf)

theorem normChars_all_ws : ∀ l : List Char,
    (∀ c ∈ l, c.isWhitespace = true) → normChars l = l := by
  intro l
  induction l with
  | nil => intro _; rfl
  | cons c t ih =>
    intro h
    rw [normChars_ws_cons c t (h c (List.mem_cons_self c t)),
      ih (fun x hx => h x (List.mem_cons_of_mem _ hx))]
theorem rstripL_cons (c : Char) (t : List Char) :
    rstripL (c :: t) = if rstripL t = [] then (if c.isWhitespace then [] else [c])
      else c :: rstripL t := by
  rcases h : rstripL t with _ | ⟨x, r⟩
  · simp [rstripL, h]
  · simp [rstripL, h]

theorem rstripL_eq_nil_iff : ∀ l : List Char,
    rstripL l = [] ↔ ∀ c ∈ l, c.isWhitespace = true := by
  intro l
  induction l with
  | nil => simp [rstripL]
  | cons c t ih =>
    rw [rstripL_cons]
    constructor
    · intro h
      split_ifs at h with h1 h2
      intro x hx
      rcases List.mem_cons.mp hx with rfl | hx
      · exact h2
      · exact (ih.mp h1) x hx
    · intro h
      have h1 : rstripL t = [] := ih.mpr (fun x hx => h x (List.mem_cons_of_mem _ hx))
      rw [if_pos h1, if_pos (h c (List.mem_cons_self c t))]

theorem rstripL_append : ∀ (a b : List Char),
    rstripL (a ++ b) = if rstripL b = [] then rstripL a else a ++ rstripL b := by
  intro a
  induction a with
  | nil =>
    intro b
    simp only [List.nil_append]
    split_ifs with h
    · rw [h]; rfl
    · rfl
  | cons c a2 ih =>
    intro b
    by_cases hb : rstripL b = []
    · simp [List.cons_append, rstripL_cons, ih b, hb]
    · simp [List.cons_append, rstripL_cons, ih b, hb]

theorem lstrip_normChars_lstrip : ∀ l : List Char,
    lstripL (normChars (lstripL l)) = lstripL (normChars l) := by
  intro l
  induction l with
  | nil => rfl
  | cons c t ih =>
    by_cases h : c.isWhitespace
    · have h1 : lstripL (c :: t) = lstripL t := by
        simp [lstripL, List.dropWhile_cons, h]
      have h2 : lstripL (normChars (c :: t)) = lstripL (normChars t) := by
        rw [normChars_ws_cons c t h]
        simp [lstripL, List.dropWhile_cons, h]
      rw [h1, ih, h2]
    · have h1 : lstripL (c :: t) = c :: t := by
        simp [lstripL, List.dropWhile_cons, h]
      rw [h1]

theorem lstrip_rstrip_comm : ∀ l : List Char, lstripL (rstripL l) = rstripL (lstripL l) := by
  intro l
  induction l with
  | nil => rfl
  | cons c t ih =>
    by_cases h : c.isWhitespace
    · rw [rstripL_cons]
      have h2 : lstripL (c :: t) = lstripL t := by simp [lstripL, List.dropWhile_cons, h]
      rcases hr : rstripL t with _ | ⟨x, r⟩
      · rw [if_pos rfl, if_pos h, h2]
        have hall : ∀ x ∈ t, x.isWhitespace = true := (rstripL_eq_nil_iff t).mp hr
        have : rstripL (lstripL t) = [] := (rstripL_eq_nil_iff _).mpr
          (fun x hx => hall x ((List.dropWhile_sublist _).subset hx))
        rw [this]
        rfl
      · rw [if_neg (by simp [hr])]
        rw [← hr]
        have h1 : lstripL (c :: rstripL t) = lstripL (rstripL t) := by
          simp [lstripL, List.dropWhile_cons, h]
        rw [h1, ih, h2]
    · have h2 : lstripL (c :: t) = c :: t := by simp [lstripL, List.dropWhile_cons, h]
      rw [h2, rstripL_cons]
      split_ifs with h1
      · simp [lstripL, List.dropWhile_cons, h]
      · simp [lstripL, List.dropWhile_cons, h]

theorem rstrip_normChars_rstrip : ∀ l : List Char,
    rstripL (normChars (rstripL l)) = rstripL (normChars l) := by
  intro l
  induction l with
  | nil => rfl
  | cons c t ih =>
    rw [rstripL_cons, normChars_cons c t,
      rstripL_append (normChars [c]) (normChars t)]
    by_cases hr : rstripL t = []
    · have hallt : ∀ x ∈ t, x.isWhitespace = true := (rstripL_eq_nil_iff t).mp hr
      have hnt : rstripL (normChars t) = [] := by
        rw [normChars_all_ws t hallt]; exact hr
      rw [if_pos hr, if_pos hnt]
      by_cases hw : c.isWhitespace
      · rw [if_pos hw]
        have hc1 : normChars [c] = [c] := normChars_all_ws [c] (by
          intro x hx
          rw [List.mem_singleton] at hx
          subst hx
          exact hw)
        rw [hc1, rstripL_cons]
        simp [rstripL, hw]
      · rw [if_neg hw]
    · rw [if_neg hr, normChars_cons c (rstripL t),
        rstripL_append (normChars [c]) (normChars (rstripL t)), ih]

theorem pyStrip_normChars (l : List Char) :
    pyStripL (normChars (pyStripL l)) = pyStripL (normChars l) := by
  unfold pyStripL
  rw [← lstrip_rstrip_comm (normChars (rstripL (lstripL l))),
    rstrip_normChars_rstrip (lstripL l),
    lstrip_rstrip_comm (normChars (lstripL l)),
    lstrip_normChars_lstrip l]
theorem decValAux_decDigitsAux : ∀ (fuel n : Nat), n ≤ fuel →
    decValAux (decDigitsAux fuel n) = n := by
  intro fuel
  induction fuel with
  | zero =>
    intro n h
    have h0 : n = 0 := Nat.le_zero.mp h
    subst h0
    rfl
  | succ fuel ih =>
    intro n h
    by_cases h0 : n = 0
    · subst h0; rfl
    · simp only [decDigitsAux, if_neg h0, decValAux]
      have hb : n / 10 ≤ fuel := by
        have hlt : n / 10 < n := Nat.div_lt_self (Nat.pos_of_ne_zero h0) (by norm_num)
        omega
      rw [ih (n / 10) hb]
      omega

theorem decDigitsAux_lt_10 : ∀ (fuel n : Nat), ∀ d ∈ decDigitsAux fuel n, d < 10 := by
  intro fuel
  induction fuel with
  | zero => intro n d hd; simp [decDigitsAux] at hd
  | succ fuel ih =>
    intro n d hd
    by_cases h0 : n = 0
    · subst h0; simp [decDigitsAux] at hd
    · simp only [decDigitsAux, if_neg h0, List.mem_cons] at hd
      rcases hd with rfl | hd
      · omega
      · exact ih (n / 10) d hd

theorem strDecVal_natToDecStr (n : Nat) : strDecVal (natToDecStr n) = n := by
  by_cases h0 : n = 0
  · subst h0; rfl
  · unfold natToDecStr strDecVal
    rw [if_neg h0]
    show decValAux (((((decDigitsAux n n).reverse.map (fun d => Char.ofNat (48 + d))).map
      (fun c => c.toNat - 48)).reverse)) = n
    rw [List.map_map]
    have hchar : ∀ m, m < 10 → (Char.ofNat (48 + m)).toNat - 48 = m := by decide
    have hcong : ∀ l : List Nat, (∀ d ∈ l, d < 10) →
        l.map ((fun c : Char => c.toNat - 48) ∘ (fun d => Char.ofNat (48 + d))) = l := by
      intro l
      induction l with
      | nil => intro _; rfl
      | cons d t ih =>
        intro hl
        simp only [List.map_cons, Function.comp_apply]
        rw [hchar d (hl d (List.mem_cons_self d t)),
          ih (fun x hx => hl x (List.mem_cons_of_mem _ hx))]
    rw [hcong _ (fun d hd => decDigitsAux_lt_10 n n d (List.mem_reverse.mp hd)),
      List.reverse_reverse]
    exact decValAux_decDigitsAux n n le_rfl

theorem natToDecStr_injective : Function.Injective natToDecStr := by
  intro a b h
  rw [← strDecVal_natToDecStr a, ← strDecVal_natToDecStr b, h]

/-- C7: the cache key is determined only by the normalized query and the count:
stripping the query before keying changes nothing, and for a fixed query two
different counts always produce different keys, in particular for the query
"data engineer" at counts 50 and 100. -/
theorem cache_key_determinism :
    (∀ (query : String) (count : Nat),
      cache_key_of query count = cache_key_of (pyStripStr query) count) ∧
    (∀ (query : String) (c1 c2 : Nat), c1 ≠ c2 →
      cache_key_of query c1 ≠ cache_key_of query c2) ∧
    cache_key_of "data engineer" 50 ≠ cache_key_of "data engineer" 100 := by
  refine ⟨?_, ?_, by decide⟩
  · intro q count
    have heq : _normalize_search_term (pyStripStr q) = _normalize_search_term q := by
      apply String.ext
      show pyStripL (normChars (pyStripL q.data)) = pyStripL (normChars q.data)
      exact pyStrip_normChars q.data
    simp only [cache_key_of, heq]
  · intro q c1 c2 hne h
    apply hne
    apply natToDecStr_injective
    have hd := congrArg String.data h
    simp only [cache_key_of, pipeline_cache_key, String.data_append] at hd
    exact String.ext (List.append_cancel_left hd)

/-- Witness for C7: the concrete counts 50 and 100 differ, so their keys differ. -/
theorem cache_key_determinism_witness :
    (50 : Nat) ≠ 100 ∧
    cache_key_of "data engineer" 50 ≠ cache_key_of "data engineer" 100 :=
  ⟨by decide, cache_key_determinism.2.1 "data engineer" 50 100 (by decide)⟩
